import Mathlib

set_option maxHeartbeats 1000000

namespace Learnflow

/-- The four entry categories of `domain.EntryType` (a `str` Enum). -/
inductive EntryType : Type
  | Goal
  | Skill
  | Session
  | Notes
deriving DecidableEq

/-- String value of each enumeration member (`EntryType.Goal.value = "Goal"`, ...). -/
def EntryType.value : EntryType → String
  | .Goal => "Goal"
  | .Skill => "Skill"
  | .Session => "Session"
  | .Notes => "Notes"

/-- Declaration order of the enumeration, as iterated by `for e in EntryType`. -/
def EntryType.all : List EntryType := [.Goal, .Skill, .Session, .Notes]

/-- Record variants of the data model.  `base` is `domain.LearningLog`
(fields `entry_type`, `text`, `timestamp`, `mood`).  The `goal` and
`reflection` variants are the `GoalLog` and `ReflectionLog` dataclasses that
`service.py` and `ui.py` import from `domain`; their class bodies are absent
from the sources, so their shape is Modelled from the spec: `GoalLog` extends
the base with a `status` string (default `"in-progress"`), `ReflectionLog`
carries the base fields with `mood` expected to be populated. -/
inductive LogRecord : Type
  | base (entry_type : EntryType) (text timestamp mood : String)
  | goal (entry_type : EntryType) (text timestamp mood status : String)
  | reflection (entry_type : EntryType) (text timestamp mood : String)
deriving DecidableEq

/-- `record.entry_type` (present on every variant). -/
def LogRecord.entry_type : LogRecord → EntryType
  | .base et _ _ _ => et
  | .goal et _ _ _ _ => et
  | .reflection et _ _ _ => et

/-- `record.text` (present on every variant). -/
def LogRecord.text : LogRecord → String
  | .base _ t _ _ => t
  | .goal _ t _ _ _ => t
  | .reflection _ t _ _ => t

/-- `record.timestamp` (present on every variant). -/
def LogRecord.timestamp : LogRecord → String
  | .base _ _ ts _ => ts
  | .goal _ _ ts _ _ => ts
  | .reflection _ _ ts _ => ts

/-- `record.mood` (present on every variant). -/
def LogRecord.mood : LogRecord → String
  | .base _ _ _ m => m
  | .goal _ _ _ m _ => m
  | .reflection _ _ _ m => m

/-- `rec.status` for Goal-variant records, `none` for the others
(`"status" in rec` / `isinstance(rec, GoalLog)` dispatch). -/
def LogRecord.statusOpt : LogRecord → Option String
  | .goal _ _ _ _ st => some st
  | _ => none

/-- `LearningLog.summary`: one-line rendering
`f"{self.entry_type.value}: {self.text}{mood_str}"` with
`mood_str = f" [Mood: {self.mood}]" if self.mood else ""`. -/
def LogRecord.summary (r : LogRecord) : String :=
  let mood_str := if r.mood = "" then "" else " [Mood: " ++ r.mood ++ "]"
  r.entry_type.value ++ ": " ++ r.text ++ mood_str

/-- `domain.LearnflowState`: the `entries` dict mapping each `EntryType` to a
list of records.  A Python dict preserves insertion order, modelled as an
association list. -/
structure LearnflowState where
  entries : List (EntryType × List LogRecord)
deriving DecidableEq

/-- The dict keys in iteration order. -/
def LearnflowState.keys (s : LearnflowState) : List EntryType :=
  s.entries.map Prod.fst

/-- Reachable-state key invariant: the dict binds exactly the four categories
in declaration order (as produced by `{e: [] for e in EntryType}`). -/
def LearnflowState.WFKeys (s : LearnflowState) : Prop :=
  s.keys = EntryType.all

instance (s : LearnflowState) : Decidable s.WFKeys := by
  unfold LearnflowState.WFKeys; infer_instance

/-- Reachable-state record invariant: every record sits in the bucket of its
own `entry_type` (every code path appends `X(etype, ...)` to `entries[etype]`). -/
def LearnflowState.WFRecords (s : LearnflowState) : Prop :=
  ∀ kv ∈ s.entries, ∀ r ∈ kv.2, r.entry_type = kv.1

instance (s : LearnflowState) : Decidable s.WFRecords := by
  unfold LearnflowState.WFRecords; infer_instance

/-- `{e: [] for e in EntryType}`: the fresh state built by the
`LearnflowState` default factory and by the reset step of `load_entries`. -/
def initState : LearnflowState :=
  ⟨EntryType.all.map (fun e => (e, []))⟩

/-- Dict lookup `entries[entry_type]`: `none` models a `KeyError`. -/
def lookupEntries (es : List (EntryType × List LogRecord)) (et : EntryType) :
    Option (List LogRecord) :=
  match es with
  | [] => none
  | kv :: rest => if kv.1 = et then some kv.2 else lookupEntries rest et

/-- `entries[entry_type].append(record)`: `none` models a `KeyError`,
otherwise the bucket of `et` grows by one record at the end. -/
def appendAt (es : List (EntryType × List LogRecord)) (et : EntryType)
    (r : LogRecord) : Option (List (EntryType × List LogRecord)) :=
  match es with
  | [] => none
  | kv :: rest =>
    if kv.1 = et then some ((kv.1, kv.2 ++ [r]) :: rest)
    else (appendAt rest et r).map (fun rest' => kv :: rest')

/-- State-level wrapper of `appendAt`. -/
def appendEntry (s : LearnflowState) (et : EntryType) (r : LogRecord) :
    Option LearnflowState :=
  (appendAt s.entries et r).map (fun es => ⟨es⟩)

/-- Python `str.strip()`: drop leading and trailing whitespace. -/
def pyStrip (s : String) : String :=
  ⟨((s.data.dropWhile Char.isWhitespace).reverse.dropWhile Char.isWhitespace).reverse⟩

/-- `(text or "").strip()` on an optional raw text. -/
def sanitize (text : Option String) : String :=
  pyStrip (text.getD "")

/-- The line composed by `LearnflowService.write_log`:
`f"[{record.timestamp}] {record.entry_type.value}: {record.text}"` plus
`" (Status: ...)"` for `GoalLog`, else `" (Mood: ...)"` when mood is truthy. -/
def write_log_line (r : LogRecord) : String :=
  let line := "[" ++ r.timestamp ++ "] " ++ r.entry_type.value ++ ": " ++ r.text
  match r with
  | .goal _ _ _ _ st => line ++ " (Status: " ++ st ++ ")"
  | .reflection _ _ _ m => if m = "" then line else line ++ " (Mood: " ++ m ++ ")"
  | .base _ _ _ m => if m = "" then line else line ++ " (Mood: " ++ m ++ ")"

/-- `LearnflowService.set_entry`: sanitize, build a base `LearningLog` with
`timestamp = now` and `mood = ""`, append it to `entries[entry_type]`, then
`write_log` it.  Returns the new state and the appended log line; `none`
models an uncaught exception (dict `KeyError`). -/
def set_entry (s : LearnflowState) (et : EntryType) (text : Option String)
    (now : String) : Option (LearnflowState × String) :=
  let record := LogRecord.base et (sanitize text) now ""
  (appendEntry s et record).map (fun s' => (s', write_log_line record))

/-- `LearnflowService.clear`: `for k in entries: entries[k] = []`. -/
def clear (s : LearnflowState) : LearnflowState :=
  ⟨s.entries.map (fun kv => (kv.1, ([] : List LogRecord)))⟩

/-- `LearnflowService.get_entry`: text of the last record of the bucket, or
`""` when the bucket is empty; `none` models a `KeyError`. -/
def get_entry (s : LearnflowState) (et : EntryType) : Option String :=
  (lookupEntries s.entries et).map (fun records =>
    match records.getLast? with
    | some r => r.text
    | none => "")

/-- `LearnflowService.summary`: for each dict bucket in iteration order with
at least one record, bind `e.value` to `records[-1].summary()`. -/
def service_summary (s : LearnflowState) : List (String × String) :=
  s.entries.filterMap (fun kv =>
    kv.2.getLast?.map (fun r => (kv.1.value, r.summary)))

/-- `GoalLog` default status.  Modelled from the spec: `Goal` variant "adds
`status`, default `\"in-progress\"`"; the `GoalLog` class body is absent from
the sources. -/
def defaultGoalStatus : String := "in-progress"

/-- `GoalLog(entry_type, text)` as called in `App.on_add_or_edit_entry`:
inherited defaults give `timestamp = now()`, `mood = ""`, and the
spec-modelled default status. -/
def mkGoalLog (et : EntryType) (text now : String) : LogRecord :=
  .goal et text now "" defaultGoalStatus

/-- The Goal branch of `App.on_add_or_edit_entry` (the `addGoal` operation):
build `GoalLog(EntryType.Goal, text)`, append it to the Goal bucket, and
`write_log` it. -/
def add_goal (s : LearnflowState) (text now : String) :
    Option (LearnflowState × String) :=
  let g := mkGoalLog .Goal text now
  (appendEntry s .Goal g).map (fun s' => (s', write_log_line g))

/-- A JSON record object as far as save/load are concerned: the five string
fields, each possibly absent. -/
structure JsonRec where
  entry_type : Option String
  text : Option String
  timestamp : Option String
  mood : Option String
  status : Option String
deriving DecidableEq

/-- The record dict written by `App.save_entries` for one record: always
`entry_type`/`text`/`timestamp`/`mood`, plus `status` for `GoalLog` records. -/
def saveRec (et : EntryType) (r : LogRecord) : JsonRec :=
  { entry_type := some et.value
    text := some r.text
    timestamp := some r.timestamp
    mood := some r.mood
    status := r.statusOpt }

/-- `App.save_entries`: per category with at least one record (`if logs:`),
in dict iteration order, emit `et.value` keyed to the list of record dicts. -/
def save_entries (s : LearnflowState) : List (String × List JsonRec) :=
  s.entries.filterMap (fun kv =>
    if kv.2 = [] then none
    else some (kv.1.value, kv.2.map (saveRec kv.1)))

/-- An element of a category array in a load input: either a JSON object or
something whose field access raises (a malformed record). -/
inductive RawRec : Type
  | obj (r : JsonRec)
  | malformed
deriving DecidableEq

/-- A load input: either the file could not be opened / parsed as JSON
(exception before the store reset), or a parsed top-level object mapping
category keys to arrays of raw records. -/
inductive LoadInput : Type
  | unreadable
  | parsed (cats : List (String × List RawRec))
deriving DecidableEq

/-- `EntryType(etype_str)`: value lookup in the enumeration, `none` models
the `ValueError` on an unknown category key. -/
def parseEntryType (str : String) : Option EntryType :=
  EntryType.all.find? (fun e => e.value = str)

/-- The reconstruction step of `App.load_entries` for one record object:
missing `text`/`timestamp`/`mood` default to `""`; `status` present builds a
`GoalLog` (first), else category `Notes` builds a `ReflectionLog`, else a
base `LearningLog`. -/
def reconstruct (et : EntryType) (r : JsonRec) : LogRecord :=
  let text := r.text.getD ""
  let timestamp := r.timestamp.getD ""
  let mood := r.mood.getD ""
  match r.status with
  | some st => .goal et text timestamp mood st
  | none =>
    if et = EntryType.Notes then .reflection et text timestamp mood
    else .base et text timestamp mood

/-- The inner record loop of `App.load_entries` on one category: append the
reconstruction of each object in order; a malformed record raises, aborting
with the state as mutated so far (`false`). -/
def loadRecs (s : LearnflowState) (et : EntryType) :
    List RawRec → LearnflowState × Bool
  | [] => (s, true)
  | .malformed :: _ => (s, false)
  | .obj r :: rest =>
    match appendEntry s et (reconstruct et r) with
    | some s' => loadRecs s' et rest
    | none => (s, false)

/-- The outer category loop of `App.load_entries`: parse each category key
(`EntryType(etype_str)`, unknown keys raise) and run the record loop;
any raise aborts with the state as mutated so far (`false`). -/
def loadCats (s : LearnflowState) :
    List (String × List RawRec) → LearnflowState × Bool
  | [] => (s, true)
  | (key, recs) :: rest =>
    match parseEntryType key with
    | none => (s, false)
    | some et =>
      match loadRecs s et recs with
      | (s', true) => loadCats s' rest
      | (s', false) => (s', false)

/-- `App.load_entries`: an unreadable file raises before the reset, leaving
the state unchanged (the handler reports failure); otherwise the state is
first reset to `{e: [] for e in EntryType}` and the parsed categories are
loaded in order.  The `Bool` is `true` exactly on the success path. -/
def load_entries (s : LearnflowState) : LoadInput → LearnflowState × Bool
  | .unreadable => (s, false)
  | .parsed cats => loadCats initState cats

/-- `true` exactly on the malformed element of a category array. -/
def RawRec.isBadRec : RawRec → Bool
  | .malformed => true
  | .obj _ => false

/-- `true` when a parsed input contains an unknown category key or a
malformed record object anywhere. -/
def hasBad (cats : List (String × List RawRec)) : Bool :=
  cats.any (fun kv =>
    (parseEntryType kv.1).isNone || kv.2.any RawRec.isBadRec)

/-- The CSV row written by `App.export_csv` for one record of category `et`:
`[etype.value, timestamp, text, mood, status]`, `status` populated only for
`GoalLog` records. -/
def csvRow (et : EntryType) (r : LogRecord) : List String :=
  [et.value, r.timestamp, r.text, r.mood,
   match r with | .goal _ _ _ _ st => st | _ => ""]

/-- `App.export_csv`: the fixed header row, then one row per record across
all categories in dict iteration order, insertion order within a category. -/
def export_csv (s : LearnflowState) : List (List String) :=
  ["EntryType", "Timestamp", "Text", "Mood", "Status"] ::
    (s.entries.map (fun kv => kv.2.map (csvRow kv.1))).flatten

/-- The canonical shape of every reachable state: exactly the four buckets in
declaration order. -/
@[reducible] def mkState (g sk se n : List LogRecord) : LearnflowState :=
  ⟨[(.Goal, g), (.Skill, sk), (.Session, se), (.Notes, n)]⟩

/-- The four persisted fields a record carries: `text`, `timestamp`, `mood`
and (for the Goal variant only) `status`. -/
def fieldView (r : LogRecord) : String × String × String × Option String :=
  (r.text, r.timestamp, r.mood, r.statusOpt)

/-- A finite sequence of `set_entry` calls on one category, each call given
by its raw text and its creation timestamp. -/
def runSets (s : LearnflowState) (et : EntryType) :
    List (Option String × String) → Option LearnflowState
  | [] => some s
  | c :: rest =>
    match set_entry s et c.1 c.2 with
    | some (s', _) => runSets s' et rest
    | none => none

/-- Bucket update helper used to state append lemmas uniformly. -/
@[reducible] def withBucket (g sk se n : List LogRecord) (et : EntryType)
    (l : List LogRecord) : LearnflowState :=
  match et with
  | .Goal => mkState (g ++ l) sk se n
  | .Skill => mkState g (sk ++ l) se n
  | .Session => mkState g sk (se ++ l) n
  | .Notes => mkState g sk se (n ++ l)

lemma withBucket_nil (g sk se n : List LogRecord) (et : EntryType) :
    withBucket g sk se n et [] = mkState g sk se n := by
  cases et <;> simp [withBucket]

lemma withBucket_Goal (g sk se n l : List LogRecord) :
    withBucket g sk se n .Goal l = mkState (g ++ l) sk se n := rfl

lemma withBucket_Skill (g sk se n l : List LogRecord) :
    withBucket g sk se n .Skill l = mkState g (sk ++ l) se n := rfl

lemma withBucket_Session (g sk se n l : List LogRecord) :
    withBucket g sk se n .Session l = mkState g sk (se ++ l) n := rfl

lemma withBucket_Notes (g sk se n l : List LogRecord) :
    withBucket g sk se n .Notes l = mkState g sk se (n ++ l) := rfl

lemma exists_mkState (s : LearnflowState) (h : s.WFKeys) :
    ∃ g sk se n, s = mkState g sk se n := by
  obtain ⟨es⟩ := s
  simp only [LearnflowState.WFKeys, LearnflowState.keys, EntryType.all] at h
  rcases es with _ | ⟨⟨k1, g⟩, _ | ⟨⟨k2, sk⟩, _ | ⟨⟨k3, se⟩, _ | ⟨⟨k4, n⟩, rest⟩⟩⟩⟩ <;>
    simp only [List.map_cons, List.map_nil, List.cons.injEq, List.map_eq_nil_iff,
      reduceCtorEq, List.cons_ne_nil, and_false, false_and] at h
  obtain ⟨h1, h2, h3, h4, h5⟩ := h
  subst h1; subst h2; subst h3; subst h4; subst h5
  exact ⟨g, sk, se, n, rfl⟩

lemma lookup_mkState_Goal (g sk se n : List LogRecord) :
    lookupEntries (mkState g sk se n).entries .Goal = some g := rfl

lemma lookup_mkState_Skill (g sk se n : List LogRecord) :
    lookupEntries (mkState g sk se n).entries .Skill = some sk := rfl

lemma lookup_mkState_Session (g sk se n : List LogRecord) :
    lookupEntries (mkState g sk se n).entries .Session = some se := rfl

lemma lookup_mkState_Notes (g sk se n : List LogRecord) :
    lookupEntries (mkState g sk se n).entries .Notes = some n := rfl

lemma appendEntry_mkState (g sk se n : List LogRecord) (et : EntryType)
    (r : LogRecord) :
    appendEntry (mkState g sk se n) et r = some (withBucket g sk se n et [r]) := by
  cases et <;> rfl

lemma parseEntryType_value (et : EntryType) :
    parseEntryType et.value = some et := by
  cases et <;> rfl

lemma loadRecs_shape (g sk se n : List LogRecord) (et : EntryType)
    (recs : List RawRec) :
    ∃ g' sk' se' n', loadRecs (mkState g sk se n) et recs =
      (mkState g' sk' se' n', !recs.any RawRec.isBadRec) := by
  induction recs generalizing g sk se n with
  | nil => exact ⟨g, sk, se, n, rfl⟩
  | cons x rest ih =>
    cases x with
    | malformed => exact ⟨g, sk, se, n, by simp [loadRecs, RawRec.isBadRec]⟩
    | obj r =>
      cases et <;>
        simpa [loadRecs, appendEntry_mkState, withBucket, RawRec.isBadRec] using
          ih _ _ _ _

lemma hasBad_cons (key : String) (recs : List RawRec)
    (rest : List (String × List RawRec)) :
    hasBad ((key, recs) :: rest) =
      (((parseEntryType key).isNone || recs.any RawRec.isBadRec) || hasBad rest) := by
  simp [hasBad, List.any_cons]

lemma loadCats_shape (g sk se n : List LogRecord)
    (cats : List (String × List RawRec)) :
    ∃ g' sk' se' n', loadCats (mkState g sk se n) cats =
      (mkState g' sk' se' n', !hasBad cats) := by
  induction cats generalizing g sk se n with
  | nil => exact ⟨g, sk, se, n, by simp [loadCats, hasBad]⟩
  | cons kv rest ih =>
    obtain ⟨key, recs⟩ := kv
    cases hp : parseEntryType key with
    | none =>
      refine ⟨g, sk, se, n, ?_⟩
      have hbool : hasBad ((key, recs) :: rest) = true := by
        simp [hasBad_cons, hp]
      rw [hbool]
      simp [loadCats, hp]
    | some et =>
      obtain ⟨g1, sk1, se1, n1, h1⟩ := loadRecs_shape g sk se n et recs
      cases hb : recs.any RawRec.isBadRec with
      | true =>
        refine ⟨g1, sk1, se1, n1, ?_⟩
        have hbool : hasBad ((key, recs) :: rest) = true := by
          simp [hasBad_cons, hb]
        rw [hbool]
        rw [hb] at h1
        simp [loadCats, hp, h1]
      | false =>
        obtain ⟨g2, sk2, se2, n2, h2⟩ := ih g1 sk1 se1 n1
        refine ⟨g2, sk2, se2, n2, ?_⟩
        have hbool : hasBad ((key, recs) :: rest) = hasBad rest := by
          simp [hasBad_cons, hp, hb]
        rw [hbool]
        rw [hb] at h1
        simp [loadCats, hp, h1, h2]

lemma WFKeys_mkState (g sk se n : List LogRecord) : (mkState g sk se n).WFKeys := rfl

lemma clear_mkState (g sk se n : List LogRecord) :
    clear (mkState g sk se n) = mkState [] [] [] [] := rfl

lemma initState_eq : initState = mkState [] [] [] [] := rfl

lemma loadRecs_saved (g sk se n : List LogRecord) (et : EntryType)
    (l : List LogRecord) :
    loadRecs (mkState g sk se n) et (l.map (fun r => RawRec.obj (saveRec et r))) =
      (withBucket g sk se n et (l.map (fun r => reconstruct et (saveRec et r))),
        true) := by
  induction l generalizing g sk se n with
  | nil => simp [loadRecs, withBucket_nil]
  | cons x xs ih =>
    cases et <;>
      simp [loadRecs, appendEntry_mkState, withBucket, ih, List.append_assoc]

lemma fieldView_reconstruct_saveRec (et : EntryType) (r : LogRecord) :
    fieldView (reconstruct et (saveRec et r)) = fieldView r := by
  by_cases het : et = EntryType.Notes <;>
    cases r <;>
      simp [reconstruct, saveRec, fieldView, het, LogRecord.text,
        LogRecord.timestamp, LogRecord.mood, LogRecord.statusOpt]

lemma fieldView_map_saved (et : EntryType) (l : List LogRecord) :
    (l.map (fun r => reconstruct et (saveRec et r))).map fieldView =
      l.map fieldView := by
  induction l with
  | nil => rfl
  | cons x xs ih => simp [ih, fieldView_reconstruct_saveRec]

lemma runSets_mkState (g sk se n : List LogRecord) (et : EntryType)
    (calls : List (Option String × String)) :
    runSets (mkState g sk se n) et calls =
      some (withBucket g sk se n et
        (calls.map (fun c => LogRecord.base et (sanitize c.1) c.2 ""))) := by
  induction calls generalizing g sk se n with
  | nil => simp [runSets, withBucket_nil]
  | cons c cs ih =>
    cases et <;>
      simp [runSets, set_entry, appendEntry_mkState, withBucket, ih,
        List.append_assoc]

example : initState = mkState [] [] [] [] := by decide

/-- Claim C4: for every category in the closed enumeration and every raw
text input (including absent and empty text), `set_entry` — including its
invocation of the append-log writer — completes without raising, on every
state whose dict binds the four categories. -/
theorem set_entry_total (s : LearnflowState) (et : EntryType)
    (text : Option String) (now : String) (h : s.WFKeys) :
    ∃ result, set_entry s et text now = some result := by
  obtain ⟨g, sk, se, n, rfl⟩ := exists_mkState s h
  cases et <;> exact ⟨_, rfl⟩

theorem set_entry_total_witness :
    ∃ result, set_entry initState .Notes none "t1" = some result :=
  set_entry_total initState .Notes none "t1" (by decide)

/-- Claim C5: a finite sequence of `set_entry` calls on one category appends
exactly one base record per call, with the trimmed text (absent text
becoming `""`) and empty mood; the stored sequence afterwards has one record
per call in call order, and `get_entry` returns the trimmed text of the most
recent call. -/
theorem set_entry_append_semantics (et : EntryType)
    (calls : List (Option String × String)) :
    ∃ s', runSets initState et calls = some s' ∧
      ∃ stored, lookupEntries s'.entries et = some stored ∧
        stored = calls.map (fun c => LogRecord.base et (sanitize c.1) c.2 "") ∧
        stored.length = calls.length ∧
        ∀ c, calls.getLast? = some c → get_entry s' et = some (sanitize c.1) := by
  rw [initState_eq]
  refine ⟨_, runSets_mkState [] [] [] [] et calls, ?_⟩
  have hlk : lookupEntries
      (withBucket [] [] [] [] et
        (calls.map (fun c => LogRecord.base et (sanitize c.1) c.2 ""))).entries et =
      some (calls.map (fun c => LogRecord.base et (sanitize c.1) c.2 "")) := by
    cases et <;> simp [withBucket, mkState, lookupEntries]
  refine ⟨_, hlk, rfl, by simp, ?_⟩
  intro c hc
  have hlast : (calls.map (fun c => LogRecord.base et (sanitize c.1) c.2 "")).getLast? =
      some (LogRecord.base et (sanitize c.1) c.2 "") := by
    rw [List.getLast?_map, hc]; rfl
  simp [get_entry, hlk, hlast, LogRecord.text]

theorem set_entry_append_semantics_witness :
    ∃ s', runSets initState .Goal
        [(some "First Goal", "t1"), (some "Second Goal", "t2")] = some s' ∧
      ∃ stored, lookupEntries s'.entries .Goal = some stored ∧
        stored = [LogRecord.base .Goal "First Goal" "t1" "",
                  LogRecord.base .Goal "Second Goal" "t2" ""] ∧
        stored.length = 2 ∧
        get_entry s' .Goal = some "Second Goal" := by
  obtain ⟨s', h1, stored, h2, h3, h4, h5⟩ :=
    set_entry_append_semantics .Goal
      [(some "First Goal", "t1"), (some "Second Goal", "t2")]
  refine ⟨s', h1, stored, h2, ?_, h4, ?_⟩
  · rw [h3]; decide
  · have := h5 (some "Second Goal", "t2") rfl
    rwa [show sanitize (some "Second Goal") = "Second Goal" from by decide] at this

/-- Claim C7: after `clear`, every category's sequence is empty, `get_entry`
returns `""` on every category, and `summary` is the empty mapping; all
categories are emptied by the one call. -/
theorem clear_resets_all (s : LearnflowState) (h : s.WFKeys) :
    (∀ et, lookupEntries (clear s).entries et = some []) ∧
    (∀ et, get_entry (clear s) et = some "") ∧
    service_summary (clear s) = [] := by
  obtain ⟨g, sk, se, n, rfl⟩ := exists_mkState s h
  rw [clear_mkState]
  exact ⟨fun et => by cases et <;> rfl, fun et => by cases et <;> rfl, rfl⟩

theorem clear_resets_all_witness :
    lookupEntries
        (clear (mkState [LogRecord.base .Goal "g" "t" ""] [] [] [])).entries
        .Skill = some [] ∧
    get_entry (clear (mkState [LogRecord.base .Goal "g" "t" ""] [] [] []))
        .Goal = some "" ∧
    service_summary (clear (mkState [LogRecord.base .Goal "g" "t" ""] [] [] [])) = [] := by
  obtain ⟨h1, h2, h3⟩ :=
    clear_resets_all (mkState [LogRecord.base .Goal "g" "t" ""] [] [] []) (by decide)
  exact ⟨h1 .Skill, h2 .Goal, h3⟩

/-- Claim C9: the add-goal operation appends exactly one Goal-variant record
to the Goal bucket, with the spec-default status `"in-progress"` (the caller
in `ui.py` does not override it), leaves every other bucket unchanged, and
writes the record's line to the append log. -/
theorem add_goal_appends_goal_record (s : LearnflowState) (text now : String)
    (h : s.WFKeys) :
    ∃ s', add_goal s text now =
        some (s', write_log_line (LogRecord.goal .Goal text now "" "in-progress")) ∧
      (∀ gl, lookupEntries s.entries .Goal = some gl →
        lookupEntries s'.entries .Goal =
          some (gl ++ [LogRecord.goal .Goal text now "" "in-progress"])) ∧
      ∀ et, et ≠ .Goal → lookupEntries s'.entries et = lookupEntries s.entries et := by
  obtain ⟨g, sk, se, n, rfl⟩ := exists_mkState s h
  refine ⟨mkState (g ++ [LogRecord.goal .Goal text now "" "in-progress"]) sk se n,
    rfl, ?_, ?_⟩
  · intro gl hgl
    rw [lookup_mkState_Goal] at hgl
    injection hgl with hgl
    subst hgl
    exact lookup_mkState_Goal _ _ _ _
  · intro et het
    cases et with
    | Goal => exact absurd rfl het
    | Skill => rfl
    | Session => rfl
    | Notes => rfl

theorem add_goal_appends_goal_record_witness :
    ∃ s', add_goal initState "Learn Rust" "t1" =
        some (s', write_log_line (LogRecord.goal .Goal "Learn Rust" "t1" "" "in-progress")) ∧
      lookupEntries s'.entries .Goal =
        some [LogRecord.goal .Goal "Learn Rust" "t1" "" "in-progress"] ∧
      lookupEntries s'.entries .Skill = some [] := by
  obtain ⟨s', h1, h2, h3⟩ :=
    add_goal_appends_goal_record initState "Learn Rust" "t1" (by decide)
  refine ⟨s', h1, ?_, ?_⟩
  · simpa using h2 [] (by decide)
  · exact (h3 .Skill (by decide)).trans (by decide)

/-- Claim C10: the construction default binds exactly the four categories;
`set_entry`, `clear` and `load_entries` preserve that key set, and indexing
the dict by any category never fails on states satisfying it. -/
theorem keyset_invariant :
    initState.WFKeys ∧
    (∀ s et text now, s.WFKeys →
      ∃ r, set_entry s et text now = some r ∧ r.1.WFKeys) ∧
    (∀ s, s.WFKeys → (clear s).WFKeys) ∧
    (∀ s input, s.WFKeys → (load_entries s input).1.WFKeys) ∧
    (∀ (s : LearnflowState) (et : EntryType), s.WFKeys →
      (lookupEntries s.entries et).isSome) := by
  refine ⟨rfl, ?_, ?_, ?_, ?_⟩
  · intro s et text now h
    obtain ⟨g, sk, se, n, rfl⟩ := exists_mkState s h
    cases et <;> exact ⟨_, rfl, rfl⟩
  · intro s h
    obtain ⟨g, sk, se, n, rfl⟩ := exists_mkState s h
    rw [clear_mkState]
    exact WFKeys_mkState [] [] [] []
  · intro s input h
    cases input with
    | unreadable => exact h
    | parsed cats =>
      obtain ⟨g', sk', se', n', h'⟩ := loadCats_shape [] [] [] [] cats
      show (loadCats initState cats).1.WFKeys
      rw [initState_eq, h']
      exact WFKeys_mkState g' sk' se' n'
  · intro s et h
    obtain ⟨g, sk, se, n, rfl⟩ := exists_mkState s h
    cases et <;> rfl

theorem keyset_invariant_witness :
    ∃ r, set_entry initState .Session (some "Studied 2 hours") "t1" = some r ∧
      r.1.WFKeys :=
  keyset_invariant.2.1 initState .Session (some "Studied 2 hours") "t1" (by decide)

/-- Claim C3: loading a record object picks the variant by precedence —
a `status` field wins and builds a Goal-variant carrying that status
verbatim (even under the `Notes` category), else category `Notes` builds a
Reflection-variant, else a Base-variant; missing `text`/`timestamp`/`mood`
default to `""`. -/
theorem load_discriminator_precedence (s : LearnflowState) (et : EntryType)
    (r : JsonRec) :
    (load_entries s (.parsed [(et.value, [RawRec.obj r])])).2 = true ∧
    lookupEntries
        (load_entries s (.parsed [(et.value, [RawRec.obj r])])).1.entries et =
      some [match r.status with
            | some st =>
              LogRecord.goal et (r.text.getD "") (r.timestamp.getD "")
                (r.mood.getD "") st
            | none =>
              if et = EntryType.Notes then
                LogRecord.reflection et (r.text.getD "") (r.timestamp.getD "")
                  (r.mood.getD "")
              else
                LogRecord.base et (r.text.getD "") (r.timestamp.getD "")
                  (r.mood.getD "")] := by
  have hload : load_entries s (.parsed [(et.value, [RawRec.obj r])]) =
      (withBucket [] [] [] [] et [reconstruct et r], true) := by
    show loadCats initState [(et.value, [RawRec.obj r])] = _
    rw [initState_eq]
    simp [loadCats, loadRecs, parseEntryType_value, appendEntry_mkState]
  rw [hload]
  refine ⟨rfl, ?_⟩
  have hlk : lookupEntries (withBucket [] [] [] [] et [reconstruct et r]).entries et =
      some [reconstruct et r] := by
    cases et <;> simp [withBucket, mkState, lookupEntries]
  rw [hlk]
  cases hst : r.status <;> simp [reconstruct, hst]

lemma summary_bucket (et : EntryType) (l : List LogRecord)
    (h : ∀ r ∈ l, r.entry_type = et) :
    l.getLast?.map (fun r => (et.value, r.summary)) =
      l.getLast?.map (fun r => (et.value, et.value ++ ": " ++ r.text ++
        (if r.mood = "" then "" else " [Mood: " ++ r.mood ++ "]"))) := by
  cases hl : l.getLast? with
  | none => rfl
  | some r =>
    have hr : r ∈ l := List.mem_of_mem_getLast? hl
    simp [LogRecord.summary, h r hr]

/-- Claim C6: `summary` contains exactly the categories with at least one
record — in `CategoryTag` declaration order, hence at most 4 entries — and
each value renders the latest record as `"{category}: {text}"` with a
`" [Mood: {mood}]"` suffix exactly when that record's mood is non-empty. -/
theorem summary_contract (s : LearnflowState) (h1 : s.WFKeys)
    (h2 : s.WFRecords) :
    (service_summary s).length ≤ 4 ∧
    service_summary s = EntryType.all.filterMap (fun et =>
      ((lookupEntries s.entries et).getD []).getLast?.map (fun r =>
        (et.value, et.value ++ ": " ++ r.text ++
          (if r.mood = "" then "" else " [Mood: " ++ r.mood ++ "]")))) := by
  obtain ⟨g, sk, se, n, rfl⟩ := exists_mkState s h1
  have hg : ∀ r ∈ g, r.entry_type = EntryType.Goal :=
    fun r hr => h2 (EntryType.Goal, g) (by simp [mkState]) r hr
  have hsk : ∀ r ∈ sk, r.entry_type = EntryType.Skill :=
    fun r hr => h2 (EntryType.Skill, sk) (by simp [mkState]) r hr
  have hse : ∀ r ∈ se, r.entry_type = EntryType.Session :=
    fun r hr => h2 (EntryType.Session, se) (by simp [mkState]) r hr
  have hn : ∀ r ∈ n, r.entry_type = EntryType.Notes :=
    fun r hr => h2 (EntryType.Notes, n) (by simp [mkState]) r hr
  have heq : service_summary (mkState g sk se n) =
      EntryType.all.filterMap (fun et =>
        ((lookupEntries (mkState g sk se n).entries et).getD []).getLast?.map (fun r =>
          (et.value, et.value ++ ": " ++ r.text ++
            (if r.mood = "" then "" else " [Mood: " ++ r.mood ++ "]")))) := by
    simp only [service_summary, mkState, EntryType.all, List.filterMap_cons,
      List.filterMap_nil, lookup_mkState_Goal, lookup_mkState_Skill,
      lookup_mkState_Session, lookup_mkState_Notes, Option.getD_some]
    rw [summary_bucket EntryType.Goal g hg, summary_bucket EntryType.Skill sk hsk,
      summary_bucket EntryType.Session se hse, summary_bucket EntryType.Notes n hn]
    rfl
  refine ⟨?_, heq⟩
  rw [heq]
  exact le_trans (List.length_filterMap_le _ _) (by decide)

theorem summary_contract_witness :
    (service_summary (mkState [LogRecord.base .Goal "Finish Week 1" "t1" ""]
        [] [] [LogRecord.reflection .Notes "Focus on Tkinter" "t2" "motivated"])).length ≤ 4 ∧
    service_summary (mkState [LogRecord.base .Goal "Finish Week 1" "t1" ""]
        [] [] [LogRecord.reflection .Notes "Focus on Tkinter" "t2" "motivated"]) =
      EntryType.all.filterMap (fun et =>
        ((lookupEntries (mkState [LogRecord.base .Goal "Finish Week 1" "t1" ""]
            [] [] [LogRecord.reflection .Notes "Focus on Tkinter" "t2" "motivated"]).entries
                et).getD []).getLast?.map (fun r =>
          (et.value, et.value ++ ": " ++ r.text ++
            (if r.mood = "" then "" else " [Mood: " ++ r.mood ++ "]")))) :=
  summary_contract
    (mkState [LogRecord.base .Goal "Finish Week 1" "t1" ""]
      [] [] [LogRecord.reflection .Notes "Focus on Tkinter" "t2" "motivated"])
    (by decide) (by decide)

lemma csvRow_fun_eq (et : EntryType) :
    csvRow et = (fun r =>
      [et.value, r.timestamp, r.text, r.mood, r.statusOpt.getD ""]) := by
  funext r
  cases r <;> rfl

/-- Claim C8: the CSV export is exactly the header row
`EntryType,Timestamp,Text,Mood,Status` followed by one data row per record
across all categories, in category declaration order then insertion order;
the Status column is the record's status for Goal-variant records and `""`
otherwise, and the Mood column is the record's mood. -/
theorem export_csv_shape (s : LearnflowState) (h : s.WFKeys) :
    export_csv s = ["EntryType", "Timestamp", "Text", "Mood", "Status"] ::
      (EntryType.all.map (fun et =>
        ((lookupEntries s.entries et).getD []).map (fun r =>
          [et.value, r.timestamp, r.text, r.mood, r.statusOpt.getD ""]))).flatten ∧
    (export_csv s).length = 1 + (s.entries.map (fun kv => kv.2.length)).sum := by
  obtain ⟨g, sk, se, n, rfl⟩ := exists_mkState s h
  constructor
  · simp only [export_csv, mkState, EntryType.all, List.map_cons, List.map_nil,
      lookup_mkState_Goal, lookup_mkState_Skill, lookup_mkState_Session,
      lookup_mkState_Notes, Option.getD_some, csvRow_fun_eq]
    rfl
  · simp [export_csv, mkState, List.length_flatten]
    omega

theorem export_csv_shape_witness :
    export_csv (mkState [LogRecord.goal .Goal "Learn Rust" "t1" "" "in-progress"] [] [] []) =
      ["EntryType", "Timestamp", "Text", "Mood", "Status"] ::
      (EntryType.all.map (fun et =>
        ((lookupEntries (mkState [LogRecord.goal .Goal "Learn Rust" "t1" "" "in-progress"]
            [] [] []).entries et).getD []).map (fun r =>
          [et.value, r.timestamp, r.text, r.mood, r.statusOpt.getD ""]))).flatten ∧
    (export_csv (mkState [LogRecord.goal .Goal "Learn Rust" "t1" "" "in-progress"] [] [] [])).length =
      1 + ((mkState [LogRecord.goal .Goal "Learn Rust" "t1" "" "in-progress"] [] [] []).entries.map
        (fun kv => kv.2.length)).sum :=
  export_csv_shape
    (mkState [LogRecord.goal .Goal "Learn Rust" "t1" "" "in-progress"] [] [] [])
    (by decide)

/-- Claim C2, counterexample: a store holding one Goal record, loaded from a
parsed input whose only category key is unknown, reports failure yet does
not retain its pre-load contents — the reset already happened, so the claim
"the store's contents after the failed load are exactly the contents it had
before" is false on the code. -/
theorem load_not_atomic_cex :
    ∃ pre line,
      set_entry initState .Goal (some "Finish Week 1") "2025-09-17T00:00:00" =
        some (pre, line) ∧
      (load_entries pre (.parsed [("Bogus", [])])).2 = false ∧
      (load_entries pre (.parsed [("Bogus", [])])).1 ≠ pre := by
  refine ⟨mkState [LogRecord.base .Goal "Finish Week 1" "2025-09-17T00:00:00" ""] [] [] [],
    "[2025-09-17T00:00:00] Goal: Finish Week 1", by decide, by decide, by decide⟩

/-- Claim C2, amended: if the file cannot be opened or parsed as JSON the
load fails with the store unchanged; once parsing has produced data,
however, the load first resets the store, so its result never depends on
the pre-load contents, and it reports failure exactly when the input holds
an unknown category key or a malformed record object. -/
theorem load_failure_semantics :
    (∀ s, load_entries s .unreadable = (s, false)) ∧
    (∀ s₁ s₂ cats,
      (load_entries s₁ (.parsed cats)).1 = (load_entries s₂ (.parsed cats)).1) ∧
    (∀ s cats, (load_entries s (.parsed cats)).2 = !hasBad cats) := by
  refine ⟨fun s => rfl, fun s₁ s₂ cats => rfl, fun s cats => ?_⟩
  obtain ⟨g', sk', se', n', h'⟩ := loadCats_shape [] [] [] [] cats
  show (loadCats initState cats).2 = _
  rw [initState_eq, h']

lemma lookup_lit_Goal (g sk se n : List LogRecord) :
    lookupEntries [(EntryType.Goal, g), (EntryType.Skill, sk),
      (EntryType.Session, se), (EntryType.Notes, n)] EntryType.Goal = some g := rfl

lemma lookup_lit_Skill (g sk se n : List LogRecord) :
    lookupEntries [(EntryType.Goal, g), (EntryType.Skill, sk),
      (EntryType.Session, se), (EntryType.Notes, n)] EntryType.Skill = some sk := rfl

lemma lookup_lit_Session (g sk se n : List LogRecord) :
    lookupEntries [(EntryType.Goal, g), (EntryType.Skill, sk),
      (EntryType.Session, se), (EntryType.Notes, n)] EntryType.Session = some se := rfl

lemma lookup_lit_Notes (g sk se n : List LogRecord) :
    lookupEntries [(EntryType.Goal, g), (EntryType.Skill, sk),
      (EntryType.Session, se), (EntryType.Notes, n)] EntryType.Notes = some n := rfl

/-- Claim C1: loading the JSON produced by save succeeds and reproduces,
for every category that had at least one record before saving, a sequence
of records of the same length and order with identical `text`, `timestamp`,
`mood`, and (for Goal-variant records) `status`. -/
theorem round_trip_save_load (s : LearnflowState) (h : s.WFKeys) :
    (load_entries s (.parsed ((save_entries s).map
        (fun kv => (kv.1, kv.2.map RawRec.obj))))).2 = true ∧
    ∀ et l, lookupEntries s.entries et = some l → l ≠ [] →
      ∃ l', lookupEntries (load_entries s (.parsed ((save_entries s).map
          (fun kv => (kv.1, kv.2.map RawRec.obj))))).1.entries et = some l' ∧
        l'.map fieldView = l.map fieldView := by
  obtain ⟨g, sk, se, n, rfl⟩ := exists_mkState s h
  by_cases hg : g = [] <;> by_cases hsk : sk = [] <;>
    by_cases hse : se = [] <;> by_cases hn : n = [] <;>
    refine ⟨?_, ?_⟩ <;>
    simp only [save_entries, mkState, List.filterMap_cons, List.filterMap_nil,
      hg, hsk, hse, hn, if_true, if_false, eq_self_iff_true, ite_true, ite_false,
      List.map_cons, List.map_nil, List.map_map, Function.comp_def, load_entries,
      initState_eq, loadCats, loadRecs_saved, parseEntryType_value,
      withBucket_Goal, withBucket_Skill, withBucket_Session, withBucket_Notes,
      List.nil_append, List.append_nil]
  all_goals
    intro et l hl hne
    cases et <;>
      simp only [lookup_lit_Goal, lookup_lit_Skill, lookup_lit_Session,
        lookup_lit_Notes, Option.some.injEq] at hl ⊢ <;>
      subst hl <;>
      first
        | exact absurd rfl hne
        | exact ⟨_, rfl, fieldView_map_saved _ _⟩

theorem round_trip_save_load_witness :
    (load_entries
        (mkState [LogRecord.goal .Goal "Learn Rust" "t1" "" "done"] [] []
          [LogRecord.base .Notes "note" "t2" "happy"])
        (.parsed ((save_entries
            (mkState [LogRecord.goal .Goal "Learn Rust" "t1" "" "done"] [] []
              [LogRecord.base .Notes "note" "t2" "happy"])).map
          (fun kv => (kv.1, kv.2.map RawRec.obj))))).2 = true ∧
    ∃ l', lookupEntries
        (load_entries
          (mkState [LogRecord.goal .Goal "Learn Rust" "t1" "" "done"] [] []
            [LogRecord.base .Notes "note" "t2" "happy"])
          (.parsed ((save_entries
              (mkState [LogRecord.goal .Goal "Learn Rust" "t1" "" "done"] [] []
                [LogRecord.base .Notes "note" "t2" "happy"])).map
            (fun kv => (kv.1, kv.2.map RawRec.obj))))).1.entries .Notes = some l' ∧
      l'.map fieldView = [LogRecord.base .Notes "note" "t2" "happy"].map fieldView := by
  obtain ⟨h1, h2⟩ := round_trip_save_load
    (mkState [LogRecord.goal .Goal "Learn Rust" "t1" "" "done"] [] []
      [LogRecord.base .Notes "note" "t2" "happy"]) (by decide)
  exact ⟨h1, h2 .Notes [LogRecord.base .Notes "note" "t2" "happy"] (by decide) (by decide)⟩

example :
    set_entry initState .Goal (some " hi ") "t0" =
      some (mkState [.base .Goal "hi" "t0" ""] [] [] [], "[t0] Goal: hi") := by
  decide

example :
    (load_entries initState (.parsed [("Bogus", [])])).2 = false := by decide

end Learnflow
